import Mathlib

/-!
# Attribute bridge of `pyunrealsdk` (`unreal_bindings/property_access.cpp`)

A shallow embedding of `py_dir`, `py_getattr` and `py_setattr`, and the
properties of the bridge that follow from the code.

The native instance memory is a store of slots; a slot is addressed by the
property, the base address and the slot index, which are exactly the
arguments `get_property` and `set_property` receive.  Every call of
`get_property` and `set_property` is also recorded, in order, in a ghost
trace, so that "which slots does the bridge touch" can be stated.
-/

namespace pyunrealsdk.unreal

/-! ## Scripting values and errors -/

/-- Values of the scripting runtime (`py::object`). -/
inductive PyObject where
  | none
  | bool (b : Bool)
  | int (i : Int)
  | str (s : String)
  | list (items : List PyObject)
  | tuple (items : List PyObject)
  | wrapped_array (items : List PyObject)
  | bound_function (func : String) (obj : Nat)
  | script_struct (name : String)

/-- The exceptions the bridge raises: `py::attribute_error`, `py::type_error`,
and the `py::cast_error` thrown by a failing `py::cast<value_type>`;
`array_error` carries whatever `impl::array_py_setitem` reports. -/
inductive PyError where
  | attribute_error (msg : String)
  | type_error (msg : String)
  | cast_error
  | array_error (msg : String)
  deriving DecidableEq

/-- The items of a value that passes `py::isinstance<py::sequence>`
(`PySequence_Check`), in index order; `none` for a value that is not a
sequence. -/
def PyObject.as_sequence : PyObject → Option (List PyObject)
  | .str s => some (s.toList.map fun c => PyObject.str (String.singleton c))
  | .list items => some items
  | .tuple items => some items
  | .wrapped_array items => some items
  | _ => Option.none

/-- The test `py::isinstance<py::sequence>(value)`. -/
def PyObject.is_sequence (value : PyObject) : Bool :=
  value.as_sequence.isSome

/-- The test `py::isinstance<WrappedArray>(value)`. -/
def PyObject.is_wrapped_array : PyObject → Bool
  | .wrapped_array _ => true
  | _ => false

/-- The string `py::str(py::type::of(value).attr("__name__"))`. -/
def PyObject.type_name : PyObject → String
  | .none => "NoneType"
  | .bool _ => "bool"
  | .int _ => "int"
  | .str _ => "str"
  | .list _ => "list"
  | .tuple _ => "tuple"
  | .wrapped_array _ => "WrappedArray"
  | .bound_function _ _ => "BoundFunction"
  | .script_struct _ => "UScriptStruct"

/-! ## Reflection data -/

/-- Modelled from the spec: the per-category marshaling trait
(`PropTraits<T>` and the `py::cast` of its `Value` type, declared in headers
that are not part of the source file).  `default_value` is `some d` exactly
when `std::is_default_constructible_v<value_type>` holds, `d` being the value
`{}`; `cast` is `py::cast<value_type>`, `none` when it throws; `to_py` turns
the value `get_property<T>` returns into a scripting value. -/
structure PropTraits (Val : Type) where
  default_value : Option Val
  cast : PyObject → Option Val
  to_py : Val → PyObject

/-- The property class `cast_prop` dispatches on.  `UArrayProperty` is the
one class the code singles out (`std::is_same_v<T, UArrayProperty>`): its
value type is `WrappedArray`, a class bound to the scripting runtime, so a
scripting value casts to it only when `py::isinstance<WrappedArray>` holds of
it.  `of_items` and `to_items` convert between the native array and the items
of its wrapper, `default_value` is as in `PropTraits`, and `array_py_setitem`
is `impl::array_py_setitem` applied to the full slice: from the current array
and the assigned scripting value it gives the array afterwards and the error
raised, if any.  Every other class is described by its marshaling trait. -/
inductive PropClass (Val : Type) where
  | UArrayProperty (default_value : Option Val) (of_items : List PyObject → Option Val)
      (to_items : Val → List PyObject)
      (array_py_setitem : Val → PyObject → Val × Option PyError)
  | other (traits : PropTraits Val)

/-- The marshaling trait `cast_prop` selects for a property class. -/
def PropClass.traits {Val : Type} : PropClass Val → PropTraits Val
  | .UArrayProperty default_value of_items to_items _ =>
    { default_value := default_value
      cast := fun value =>
        match value with
        | .wrapped_array items => of_items items
        | _ => Option.none
      to_py := fun arr => PyObject.wrapped_array (to_items arr) }
  | .other traits => traits

/-- A data-property (`UProperty`): its name, its `ArrayDim` (a signed 32-bit
field) and its class. -/
structure UProperty (Val : Type) where
  Name : String
  ArrayDim : Int
  ArrayDim_int32 : -2147483648 ≤ ArrayDim ∧ ArrayDim ≤ 2147483647
  cls : PropClass Val

/-- A reflection node (`UField`), by what `is_instance` answers for it: a
`UProperty`, a `UFunction`, a `UScriptStruct`, or a field of some other class
(`class_name` is `field->Class->Name`). -/
inductive UField (Val : Type) where
  | property (prop : UProperty Val)
  | function (name : String)
  | script_struct (name : String)
  | other (name : String) (class_name : String)

/-- The name of a field (`field->Name`). -/
def UField.Name {Val : Type} : UField Val → String
  | .property prop => prop.Name
  | .function name => name
  | .script_struct name => name
  | .other name _ => name

/-- The test `field->is_instance(find_class<UProperty>())`. -/
def UField.is_property {Val : Type} : UField Val → Bool
  | .property _ => true
  | _ => false

/-- A reflected type (`UStruct`): its name and its fields in the order
`type->fields()` iterates them. -/
structure UStruct (Val : Type) where
  Name : String
  fields : List (UField Val)

/-- The conversion `(size_t)x` of a signed integer on a 64-bit target. -/
def to_size_t (x : Int) : Nat :=
  (x % 18446744073709551616).toNat

/-! ## Native memory -/

/-- The slot `idx` of property `prop` in the instance at `base_addr`. -/
structure Slot where
  prop : String
  base_addr : Nat
  idx : Nat
  deriving DecidableEq

/-- One call of the marshaling trait on a slot. -/
inductive Access where
  | get (slot : Slot)
  | set (slot : Slot)
  deriving DecidableEq

/-- Native memory, with the ghost trace of slot accesses made so far. -/
structure State (Val : Type) where
  mem : Slot → Val
  trace : List Access

/-- Modelled from the spec: `get_property<T>(prop, idx, base_addr, parent)`,
the trait's read of one slot.  The ownership token `parent` is only threaded
through. -/
def get_property {Val : Type} (prop : UProperty Val) (idx : Nat) (base_addr : Nat)
    (_parent : Nat) (s : State Val) : Val × State Val :=
  (s.mem ⟨prop.Name, base_addr, idx⟩,
   { s with trace := s.trace ++ [Access.get ⟨prop.Name, base_addr, idx⟩] })

/-- Modelled from the spec: `set_property<T>(prop, idx, base_addr, value)`,
the trait's write of one slot. -/
def set_property {Val : Type} (prop : UProperty Val) (idx : Nat) (base_addr : Nat)
    (value : Val) (s : State Val) : State Val :=
  { mem := Function.update s.mem ⟨prop.Name, base_addr, idx⟩ value
    trace := s.trace ++ [Access.set ⟨prop.Name, base_addr, idx⟩] }

/-! ## The directory enumerator -/

/-- The module-level state: the flag `dir_includes_unreal`. -/
structure Globals where
  dir_includes_unreal : Bool

/-- The state at load time: `bool dir_includes_unreal = true;`. -/
def Globals.initial : Globals :=
  { dir_includes_unreal := true }

/-- The setter `register_property_helpers` exposes to the scripting runtime
under the name `dir_includes_unreal`. -/
def register_property_helpers (should_include : Bool) (_g : Globals) : Globals :=
  { dir_includes_unreal := should_include }

/-- The function `py_dir`. `object_dir self` is the result of
`builtins.object.__dir__(self)`. -/
def py_dir {Self Val : Type} (g : Globals) (object_dir : Self → List String) (self : Self)
    (type : UStruct Val) : List String :=
  let names := object_dir self
  if g.dir_includes_unreal then
    names ++ type.fields.map UField.Name
  else
    names

/-! ## The attribute reader -/

/-- The loop of `py_getattr`: for `i` in `0 .. n-1`,
`ret[i] = get_property<T>(prop, i, base_addr, parent)`. -/
def getattr_loop {Val : Type} (prop : UProperty Val) (base_addr : Nat) (parent : Nat) (n : Nat)
    (ret : List PyObject) (s : State Val) : List PyObject × State Val :=
  (List.range n).foldl
    (fun acc i =>
      let r := get_property prop i base_addr parent acc.2
      (acc.1.set i (prop.cls.traits.to_py r.1), r.2))
    (ret, s)

/-- The function `py_getattr`. `func_obj` is `none` for a null pointer. -/
def py_getattr {Val : Type} (field : UField Val) (base_addr : Nat) (parent : Nat)
    (func_obj : Option Nat) (s : State Val) : Except PyError PyObject × State Val :=
  match field with
  | .property prop =>
    if prop.ArrayDim < 1 then
      (.error (.attribute_error
        ("attribute '" ++ prop.Name ++ "' has size of " ++ toString prop.ArrayDim)), s)
    else
      let ret := List.replicate prop.ArrayDim.toNat PyObject.none
      let r := getattr_loop prop base_addr parent (to_size_t prop.ArrayDim) ret s
      if prop.ArrayDim = 1 then
        (.ok (r.1.headD PyObject.none), r.2)
      else
        (.ok (PyObject.tuple r.1), r.2)
  | .function name =>
    match func_obj with
    | Option.none =>
      (.error (.attribute_error
        ("cannot bind function '" ++ name ++ "' with null object")), s)
    | some obj => (.ok (PyObject.bound_function name obj), s)
  | .script_struct name => (.ok (PyObject.script_struct name), s)
  | .other name class_name =>
    (.error (.attribute_error
      ("attribute '" ++ name ++ "' has unknown type '" ++ class_name ++ "'")), s)

/-! ## The attribute writer -/

/-- The loop `for (i = seq_size; i < prop_size; i++) set_property<T>(prop, i,
base_addr, {})`. -/
def fill_defaults {Val : Type} (prop : UProperty Val) (base_addr : Nat) (d : Val)
    (seq_size prop_size : Nat) (s : State Val) : State Val :=
  (List.range' seq_size (prop_size - seq_size)).foldl
    (fun acc i => set_property prop i base_addr d acc) s

/-- The loop `for (i = 0; i < seq_size; i++) set_property<T>(prop, i,
base_addr, py::cast<value_type>(value_seq[i]))`, from index `i` on, `items`
being the elements of `value_seq` not yet written.  A failing cast leaves the
loop with the slots written so far. -/
def write_values {Val : Type} (prop : UProperty Val) (base_addr : Nat) :
    List PyObject → Nat → State Val → Except PyError Unit × State Val
  | [], _, s => (.ok (), s)
  | value :: items, i, s =>
    match prop.cls.traits.cast value with
    | Option.none => (.error .cast_error, s)
    | some x => write_values prop base_addr items (i + 1) (set_property prop i base_addr x s)

/-- The part of the body of the lambda of `py_setattr` after the array
special case: the default fill or the exact-size check, then the element
writes. -/
def setattr_fill_and_write {Val : Type} (prop : UProperty Val) (base_addr : Nat)
    (value_seq : List PyObject) (s : State Val) : Except PyError Unit × State Val :=
  let seq_size := value_seq.length
  let prop_size := to_size_t prop.ArrayDim
  match prop.cls.traits.default_value with
  | some d =>
    write_values prop base_addr value_seq 0 (fill_defaults prop base_addr d seq_size prop_size s)
  | Option.none =>
    if seq_size ≠ prop_size then
      (.error (.type_error
        ("attribute value is too short, " ++ prop.Name ++ " must be given as exactly "
          ++ toString prop.ArrayDim
          ++ " values (no known default to use when less are given)")), s)
    else
      write_values prop base_addr value_seq 0 s

/-- The lambda `py_setattr` hands to `cast_prop`. -/
def setattr_lambda {Val : Type} (prop : UProperty Val) (base_addr : Nat)
    (value_seq : List PyObject) (s : State Val) : Except PyError Unit × State Val :=
  let seq_size := value_seq.length
  let prop_size := to_size_t prop.ArrayDim
  match prop.cls with
  | .UArrayProperty _ _ _ array_py_setitem =>
    let first := value_seq.headD PyObject.none
    if prop_size == 1 && seq_size == 1 && !first.is_wrapped_array && first.is_sequence then
      let r := get_property prop 0 base_addr 0 s
      let a := array_py_setitem r.1 first
      let s2 : State Val :=
        { mem := Function.update r.2.mem ⟨prop.Name, base_addr, 0⟩ a.1
          trace := r.2.trace ++ [Access.set ⟨prop.Name, base_addr, 0⟩] }
      match a.2 with
      | some e => (.error e, s2)
      | Option.none => (.ok (), s2)
    else
      setattr_fill_and_write prop base_addr value_seq s
  | .other _ => setattr_fill_and_write prop base_addr value_seq s

/-- The function `py_setattr`. -/
def py_setattr {Val : Type} (field : UField Val) (base_addr : Nat) (value : PyObject)
    (s : State Val) : Except PyError Unit × State Val :=
  match field with
  | .property prop =>
    if 1 < prop.ArrayDim then
      match value.as_sequence with
      | Option.none =>
        (.error (.type_error
          ("attribute value has unexpected type '" ++ value.type_name
            ++ "', expected a sequence")), s)
      | some value_seq =>
        if to_size_t prop.ArrayDim < value_seq.length then
          (.error (.type_error
            ("attribute value is too long, " ++ prop.Name ++ " supports a maximum of "
              ++ toString prop.ArrayDim ++ " values")), s)
        else
          setattr_lambda prop base_addr value_seq s
    else
      setattr_lambda prop base_addr [value] s
  | field =>
    (.error (.attribute_error
      ("attribute '" ++ field.Name ++ "' is not a property, and thus cannot be set")), s)


/-! ## Example traits and properties

Concrete instances of the marshaling trait, used to run the bridge on
concrete inputs. -/

/-- A trait of an integer property: the native value is a signed 32-bit
integer, the default is `0`, and a scripting integer in range casts to
itself. -/
def int_traits : PropTraits Int :=
  { default_value := some 0
    cast := fun value =>
      match value with
      | .int i => if -2147483648 ≤ i ∧ i ≤ 2147483647 then some i else Option.none
      | _ => Option.none
    to_py := PyObject.int }

/-- A trait whose value type has no default (as a wrapped struct has none):
the integer trait without its default. -/
def handle_traits : PropTraits Int :=
  { int_traits with default_value := Option.none }

/-- A trait of a boolean property: the default is `false`; `py::cast<bool>`
takes `True` and `False` as they are, `None` as `false`, and an integer by
its truth value. -/
def bool_traits : PropTraits Bool :=
  { default_value := some false
    cast := fun value =>
      match value with
      | .bool b => some b
      | .none => some false
      | .int i => some (decide (i ≠ 0))
      | _ => Option.none
    to_py := PyObject.bool }

/-- An integer property named `Counts` with `ArrayDim = 0`. -/
def counts0 : UProperty Int :=
  { Name := "Counts", ArrayDim := 0, ArrayDim_int32 := by decide, cls := .other int_traits }

/-- An integer property named `Counts` with `ArrayDim = -1`. -/
def counts_neg : UProperty Int :=
  { Name := "Counts", ArrayDim := -1, ArrayDim_int32 := by decide, cls := .other int_traits }

/-- An integer property named `Counts` with `ArrayDim = 1`. -/
def counts1 : UProperty Int :=
  { Name := "Counts", ArrayDim := 1, ArrayDim_int32 := by decide, cls := .other int_traits }

/-- An integer property named `Counts` with `ArrayDim = 2`. -/
def counts2 : UProperty Int :=
  { Name := "Counts", ArrayDim := 2, ArrayDim_int32 := by decide, cls := .other int_traits }

/-- An integer property named `Counts` with `ArrayDim = 4`. -/
def counts4 : UProperty Int :=
  { Name := "Counts", ArrayDim := 4, ArrayDim_int32 := by decide, cls := .other int_traits }

/-- A property without default named `Handles` with `ArrayDim = 3`. -/
def handles3 : UProperty Int :=
  { Name := "Handles", ArrayDim := 3, ArrayDim_int32 := by decide, cls := .other handle_traits }

/-- A boolean property named `Flags` with `ArrayDim = 4`. -/
def flags4 : UProperty Bool :=
  { Name := "Flags", ArrayDim := 4, ArrayDim_int32 := by decide, cls := .other bool_traits }

/-- A memory of integers in which every slot holds `7`, with an empty trace. -/
def sevens : State Int :=
  { mem := fun _ => 7, trace := [] }

/-- A memory of booleans in which every slot holds `true`, with an empty
trace. -/
def all_true : State Bool :=
  { mem := fun _ => true, trace := [] }

/-! ## Facts about the loops -/

section Loops

variable {Val : Type}

/-- On a non-negative 32-bit value `(size_t)x` is the value itself. -/
theorem to_size_t_of_nonneg (x : Int) (h0 : 0 ≤ x) (h1 : x ≤ 2147483647) :
    to_size_t x = x.toNat := by
  unfold to_size_t
  rw [Int.emod_eq_of_lt h0 (by omega)]

/-- The size of a property of positive `ArrayDim`, as the loops see it. -/
theorem UProperty.size_of_pos (prop : UProperty Val) (h : 1 ≤ prop.ArrayDim) :
    to_size_t prop.ArrayDim = prop.ArrayDim.toNat :=
  to_size_t_of_nonneg _ (by omega) prop.ArrayDim_int32.2

/-- The memory the default-fill loop leaves: the slots `start .. start+len-1`
of the property hold the default, every other slot is untouched. -/
theorem fill_loop_mem (prop : UProperty Val) (base_addr : Nat) (d : Val) (len : Nat) :
    ∀ (start : Nat) (s : State Val) (sl : Slot),
      ((List.range' start len).foldl (fun acc i => set_property prop i base_addr d acc) s).mem sl
        = if sl.prop = prop.Name ∧ sl.base_addr = base_addr ∧ start ≤ sl.idx
              ∧ sl.idx < start + len then d else s.mem sl := by
  induction len with
  | zero =>
    intro start s sl
    rw [if_neg (fun hh => by omega)]
    simp
  | succ len ih =>
    intro start s sl
    rw [List.range'_succ, List.foldl_cons, ih]
    by_cases h : sl = ⟨prop.Name, base_addr, start⟩
    · subst h
      simp [set_property]
    · have h2 : ¬ (sl.prop = prop.Name ∧ sl.base_addr = base_addr ∧ sl.idx = start) := by
        intro hh
        apply h
        cases sl
        simp_all
      simp only [set_property, Function.update_apply, if_neg h]
      by_cases h3 : sl.prop = prop.Name ∧ sl.base_addr = base_addr
      · have h4 : sl.idx ≠ start := fun e => h2 ⟨h3.1, h3.2, e⟩
        by_cases h5 : start + 1 ≤ sl.idx ∧ sl.idx < start + 1 + len
        · rw [if_pos ⟨h3.1, h3.2, h5⟩, if_pos ⟨h3.1, h3.2, by omega, by omega⟩]
        · rw [if_neg (fun hh => h5 ⟨hh.2.2.1, hh.2.2.2⟩),
            if_neg (fun hh => h5 ⟨by omega, by omega⟩)]
      · rw [if_neg (fun hh => h3 ⟨hh.1, hh.2.1⟩), if_neg (fun hh => h3 ⟨hh.1, hh.2.1⟩)]

/-- The trace the default-fill loop leaves: one write per slot, in order. -/
theorem fill_loop_trace (prop : UProperty Val) (base_addr : Nat) (d : Val) (len : Nat) :
    ∀ (start : Nat) (s : State Val),
      ((List.range' start len).foldl (fun acc i => set_property prop i base_addr d acc) s).trace
        = s.trace ++ (List.range' start len).map
            (fun i => Access.set ⟨prop.Name, base_addr, i⟩) := by
  induction len with
  | zero =>
    intro start s
    simp
  | succ len ih =>
    intro start s
    rw [List.range'_succ, List.foldl_cons, ih]
    simp [set_property]

/-- The memory after `fill_defaults`. -/
theorem fill_defaults_mem (prop : UProperty Val) (base_addr : Nat) (d : Val)
    (seq_size prop_size : Nat) (s : State Val) (sl : Slot) :
    (fill_defaults prop base_addr d seq_size prop_size s).mem sl
      = if sl.prop = prop.Name ∧ sl.base_addr = base_addr ∧ seq_size ≤ sl.idx
            ∧ sl.idx < prop_size then d else s.mem sl := by
  unfold fill_defaults
  rw [fill_loop_mem]
  by_cases h : sl.prop = prop.Name ∧ sl.base_addr = base_addr ∧ seq_size ≤ sl.idx
      ∧ sl.idx < prop_size
  · rw [if_pos h, if_pos ⟨h.1, h.2.1, h.2.2.1, by omega⟩]
  · rw [if_neg h, if_neg (fun hh => h ⟨hh.1, hh.2.1, hh.2.2.1, by omega⟩)]

/-- The trace after `fill_defaults`. -/
theorem fill_defaults_trace (prop : UProperty Val) (base_addr : Nat) (d : Val)
    (seq_size prop_size : Nat) (s : State Val) :
    (fill_defaults prop base_addr d seq_size prop_size s).trace
      = s.trace ++ (List.range' seq_size (prop_size - seq_size)).map
          (fun i => Access.set ⟨prop.Name, base_addr, i⟩) := by
  unfold fill_defaults
  rw [fill_loop_trace]

/-- The element-write loop when every element casts: it succeeds, slot
`i + j` holds the cast of element `j`, every other slot is untouched, and
the trace gains one write per element, in order. -/
theorem write_values_ok (prop : UProperty Val) (base_addr : Nat) :
    ∀ (items : List PyObject) (xs : List Val) (i : Nat) (s : State Val),
      items.map prop.cls.traits.cast = xs.map some →
      (write_values prop base_addr items i s).1 = .ok () ∧
      (∀ sl : Slot, (write_values prop base_addr items i s).2.mem sl
        = if sl.prop = prop.Name ∧ sl.base_addr = base_addr ∧ i ≤ sl.idx
          then (xs[sl.idx - i]?).getD (s.mem sl) else s.mem sl) ∧
      (write_values prop base_addr items i s).2.trace
        = s.trace ++ (List.range' i xs.length).map
            (fun j => Access.set ⟨prop.Name, base_addr, j⟩) := by
  intro items
  induction items with
  | nil =>
    intro xs i s h
    cases xs with
    | nil => simp [write_values]
    | cons x xs => simp at h
  | cons value items ih =>
    intro xs i s h
    cases xs with
    | nil => simp at h
    | cons x xs =>
      simp only [List.map_cons, List.cons.injEq] at h
      obtain ⟨hx, hrest⟩ := h
      have step : write_values prop base_addr (value :: items) i s
          = write_values prop base_addr items (i + 1) (set_property prop i base_addr x s) := by
        simp [write_values, hx]
      rw [step]
      obtain ⟨h1, h2, h3⟩ := ih xs (i + 1) (set_property prop i base_addr x s) hrest
      refine ⟨h1, ?_, ?_⟩
      · intro sl
        rw [h2]
        by_cases hs : sl = ⟨prop.Name, base_addr, i⟩
        · subst hs
          simp [set_property]
        · have hne : ¬ (sl.prop = prop.Name ∧ sl.base_addr = base_addr ∧ sl.idx = i) := by
            intro hh
            apply hs
            cases sl
            simp_all
          simp only [set_property, Function.update_apply, if_neg hs]
          by_cases h5 : sl.prop = prop.Name ∧ sl.base_addr = base_addr ∧ i + 1 ≤ sl.idx
          · rw [if_pos h5, if_pos ⟨h5.1, h5.2.1, by omega⟩]
            have e : sl.idx - i = (sl.idx - (i + 1)) + 1 := by omega
            rw [e, List.getElem?_cons_succ]
          · rw [if_neg h5]
            by_cases h6 : sl.prop = prop.Name ∧ sl.base_addr = base_addr ∧ i ≤ sl.idx
            · exfalso
              have : sl.idx = i := by
                have := h6.2.2
                by_contra hc
                exact h5 ⟨h6.1, h6.2.1, by omega⟩
              exact hne ⟨h6.1, h6.2.1, this⟩
            · rw [if_neg h6]
      · rw [h3]
        simp [set_property, List.range'_succ]

/-- The element-write loop when the elements of `pre` cast and the next one
does not: it fails with the cast error, having written exactly `pre`. -/
theorem write_values_fail (prop : UProperty Val) (base_addr : Nat) (bad : PyObject)
    (rest : List PyObject) (hbad : prop.cls.traits.cast bad = Option.none) :
    ∀ (pre : List PyObject) (xs : List Val) (i : Nat) (s : State Val),
      pre.map prop.cls.traits.cast = xs.map some →
      write_values prop base_addr (pre ++ bad :: rest) i s
        = (.error .cast_error, (write_values prop base_addr pre i s).2) := by
  intro pre
  induction pre with
  | nil =>
    intro xs i s _
    simp [write_values, hbad]
  | cons value pre ih =>
    intro xs i s h
    cases xs with
    | nil => simp at h
    | cons x xs =>
      simp only [List.map_cons, List.cons.injEq] at h
      obtain ⟨hx, hrest⟩ := h
      simp only [List.cons_append, write_values, hx]
      exact ih xs (i + 1) _ hrest

end Loops

section ReadLoop

variable {Val : Type}

/-- The read loop over the first `m` slots: memory is only read, the trace
gains one read per slot in order, and entry `i` of the list is the trait's
read of slot `i` for every `i < m` inside the list, the other entries being
as they were. -/
theorem getattr_loop_spec (prop : UProperty Val) (base_addr parent : Nat)
    (ret : List PyObject) (s : State Val) :
    ∀ m : Nat,
      (getattr_loop prop base_addr parent m ret s).2.mem = s.mem ∧
      (getattr_loop prop base_addr parent m ret s).2.trace
        = s.trace ++ (List.range m).map (fun i => Access.get ⟨prop.Name, base_addr, i⟩) ∧
      (getattr_loop prop base_addr parent m ret s).1.length = ret.length ∧
      ∀ i : Nat, (getattr_loop prop base_addr parent m ret s).1[i]?
        = if i < m ∧ i < ret.length
          then some (prop.cls.traits.to_py (s.mem ⟨prop.Name, base_addr, i⟩)) else ret[i]? := by
  intro m
  induction m with
  | zero => simp [getattr_loop]
  | succ m ih =>
    obtain ⟨h1, h2, h3, h4⟩ := ih
    have step : getattr_loop prop base_addr parent (m + 1) ret s
        = (let acc := getattr_loop prop base_addr parent m ret s
           let r := get_property prop m base_addr parent acc.2
           (acc.1.set m (prop.cls.traits.to_py r.1), r.2)) := by
      simp [getattr_loop, List.range_succ, List.foldl_append]
    rw [step]
    refine ⟨?_, ?_, ?_, ?_⟩
    · simpa [get_property] using h1
    · simp [get_property, h2, List.range_succ]
    · simpa using h3
    · intro i
      simp only [get_property, List.getElem?_set, h1, h3, h4]
      by_cases him : m = i
      · subst him
        by_cases hl : m < ret.length
        · simp [hl]
        · have : ret[m]? = Option.none := by
            apply List.getElem?_eq_none
            omega
          simp [hl, this]
      · by_cases hlt : i < m
        · have : i < m + 1 := by omega
          simp [him, hlt, this]
        · have : ¬ i < m + 1 := by omega
          simp [him, hlt, this]

/-- The read loop of `py_getattr` on a fresh list of `n` entries: the list
becomes the trait's reads of the slots `0 .. n-1`, in order. -/
theorem getattr_loop_full (prop : UProperty Val) (base_addr parent n : Nat) (s : State Val) :
    (getattr_loop prop base_addr parent n (List.replicate n PyObject.none) s).1
      = (List.range n).map
          (fun i => prop.cls.traits.to_py (s.mem ⟨prop.Name, base_addr, i⟩)) := by
  obtain ⟨_, _, _, h4⟩ :=
    getattr_loop_spec prop base_addr parent (List.replicate n PyObject.none) s n
  apply List.ext_getElem?
  intro i
  rw [h4]
  by_cases hi : i < n
  · simp [hi, List.getElem?_range]
  · have h5 : (List.range n)[i]? = Option.none := by
      apply List.getElem?_eq_none
      simp
      omega
    simp [hi, h5]
    omega

/-- The result of `py_getattr` on a property of positive `ArrayDim`. -/
theorem py_getattr_property (prop : UProperty Val) (base_addr parent : Nat)
    (func_obj : Option Nat) (s : State Val) (h : 1 ≤ prop.ArrayDim) :
    (py_getattr (.property prop) base_addr parent func_obj s).1
      = if prop.ArrayDim = 1
        then .ok (prop.cls.traits.to_py (s.mem ⟨prop.Name, base_addr, 0⟩))
        else .ok (PyObject.tuple ((List.range prop.ArrayDim.toNat).map
          (fun i => prop.cls.traits.to_py (s.mem ⟨prop.Name, base_addr, i⟩)))) := by
  have hn : ¬ prop.ArrayDim < 1 := by omega
  simp only [py_getattr, if_neg hn, prop.size_of_pos h, getattr_loop_full]
  by_cases h1 : prop.ArrayDim = 1
  · simp [h1, List.range_succ]
  · simp [h1]

end ReadLoop

section Writer

variable {Val : Type}

/-- The array special case needs a property of size `1`. -/
theorem setattr_lambda_of_size_ne_one (prop : UProperty Val) (base_addr : Nat)
    (value_seq : List PyObject) (s : State Val) (h : to_size_t prop.ArrayDim ≠ 1) :
    setattr_lambda prop base_addr value_seq s
      = setattr_fill_and_write prop base_addr value_seq s := by
  unfold setattr_lambda
  cases hc : prop.cls with
  | other traits => rfl
  | UArrayProperty default_value of_items to_items array_py_setitem => simp [h]

/-- The array special case does not apply to a value that casts to the
property's value type. -/
theorem setattr_lambda_of_cast (prop : UProperty Val) (base_addr : Nat) (value : PyObject)
    (x : Val) (s : State Val) (h : prop.cls.traits.cast value = some x) :
    setattr_lambda prop base_addr [value] s
      = setattr_fill_and_write prop base_addr [value] s := by
  unfold setattr_lambda
  cases hc : prop.cls with
  | other traits => rfl
  | UArrayProperty default_value of_items to_items array_py_setitem =>
    rw [hc] at h
    cases value <;> simp [PropClass.traits] at h
    simp [PyObject.is_wrapped_array]

/-- The writer on a property of `ArrayDim > 1` and a sequence that is not too
long: it is the default fill or exact-size check, then the element writes. -/
theorem py_setattr_sequence (prop : UProperty Val) (base_addr : Nat) (value : PyObject)
    (value_seq : List PyObject) (s : State Val) (hk : 1 < prop.ArrayDim)
    (hseq : value.as_sequence = some value_seq)
    (hlen : value_seq.length ≤ prop.ArrayDim.toNat) :
    py_setattr (.property prop) base_addr value s
      = setattr_fill_and_write prop base_addr value_seq s := by
  have hsz := prop.size_of_pos (by omega : 1 ≤ prop.ArrayDim)
  have hne : to_size_t prop.ArrayDim ≠ 1 := by
    rw [hsz]
    omega
  have hnl : ¬ to_size_t prop.ArrayDim < value_seq.length := by
    rw [hsz]
    omega
  simp only [py_setattr, if_pos hk, hseq, if_neg hnl]
  exact setattr_lambda_of_size_ne_one prop base_addr value_seq s hne

end Writer

section WriteThenRead

variable {Val : Type}

/-- A list read off index by index: if the first entries of `f` are `ys` and
the following ones, up to `k`, are all `y`, then `f` over `0 .. k-1` is `ys`
followed by copies of `y`. -/
theorem map_range_eq_append_replicate (f : Nat → PyObject) (ys : List PyObject) (y : PyObject)
    (k : Nat) (hn : ys.length ≤ k)
    (h1 : ∀ i, i < ys.length → some (f i) = ys[i]?)
    (h2 : ∀ i, ys.length ≤ i → i < k → f i = y) :
    (List.range k).map f = ys ++ List.replicate (k - ys.length) y := by
  apply List.ext_getElem?
  intro i
  by_cases hi : i < ys.length
  · rw [List.getElem?_append_left hi, ← h1 i hi, List.getElem?_map,
      List.getElem?_range (by omega)]
    rfl
  · rw [List.getElem?_append_right (by omega), List.getElem?_map, List.getElem?_replicate]
    by_cases hk : i < k
    · rw [List.getElem?_range hk, if_pos (by omega)]
      simp [h2 i (by omega) hk]
    · have h5 : (List.range k)[i]? = Option.none := by
        apply List.getElem?_eq_none
        simp
        omega
      rw [h5, if_neg (by omega)]
      rfl

/-- Casting every element gives lists of the same length. -/
theorem length_eq_of_cast {α β : Type} (f : α → Option β) (items : List α) (xs : List β)
    (h : items.map f = xs.map some) : items.length = xs.length := by
  have := congrArg List.length h
  simpa using this

/-- The fill-and-write step on a class with a default, when every element
casts: it succeeds; slot `i` holds the cast of element `i` if there is one,
the default if `i` is a slot of the property past the elements, and its old
value otherwise. -/
theorem setattr_fill_and_write_default (prop : UProperty Val) (base_addr : Nat)
    (items : List PyObject) (xs : List Val) (d : Val) (s : State Val)
    (hd : prop.cls.traits.default_value = some d)
    (hcast : items.map prop.cls.traits.cast = xs.map some) :
    (setattr_fill_and_write prop base_addr items s).1 = .ok () ∧
    ∀ i : Nat, (setattr_fill_and_write prop base_addr items s).2.mem ⟨prop.Name, base_addr, i⟩
      = (xs[i]?).getD (if items.length ≤ i ∧ i < to_size_t prop.ArrayDim then d
          else s.mem ⟨prop.Name, base_addr, i⟩) := by
  simp only [setattr_fill_and_write, hd]
  obtain ⟨h1, h2, _⟩ := write_values_ok prop base_addr items xs 0
    (fill_defaults prop base_addr d items.length (to_size_t prop.ArrayDim) s) hcast
  refine ⟨h1, ?_⟩
  intro i
  rw [h2, fill_defaults_mem]
  simp

/-- The fill-and-write step on a class without default, when the size is
exact and every element casts: it succeeds; slot `i` holds the cast of
element `i` if there is one and its old value otherwise. -/
theorem setattr_fill_and_write_exact (prop : UProperty Val) (base_addr : Nat)
    (items : List PyObject) (xs : List Val) (s : State Val)
    (hd : prop.cls.traits.default_value = Option.none)
    (hsize : items.length = to_size_t prop.ArrayDim)
    (hcast : items.map prop.cls.traits.cast = xs.map some) :
    (setattr_fill_and_write prop base_addr items s).1 = .ok () ∧
    ∀ i : Nat, (setattr_fill_and_write prop base_addr items s).2.mem ⟨prop.Name, base_addr, i⟩
      = (xs[i]?).getD (s.mem ⟨prop.Name, base_addr, i⟩) := by
  simp only [setattr_fill_and_write, hd, hsize, ne_eq, not_true_eq_false, if_false]
  obtain ⟨h1, h2, _⟩ := write_values_ok prop base_addr items xs 0 s hcast
  refine ⟨h1, ?_⟩
  intro i
  rw [h2]
  simp

/-- The fill-and-write step when the supplied elements fill the property
exactly and every element casts, whether or not the class has a default: it
succeeds, and slot `i` holds the cast of element `i`. -/
theorem setattr_fill_and_write_full (prop : UProperty Val) (base_addr : Nat)
    (items : List PyObject) (xs : List Val) (s : State Val)
    (hsize : items.length = to_size_t prop.ArrayDim)
    (hcast : items.map prop.cls.traits.cast = xs.map some) :
    (setattr_fill_and_write prop base_addr items s).1 = .ok () ∧
    ∀ i : Nat, i < xs.length →
      some ((setattr_fill_and_write prop base_addr items s).2.mem ⟨prop.Name, base_addr, i⟩)
        = xs[i]? := by
  have hlen := length_eq_of_cast _ _ _ hcast
  cases hd : prop.cls.traits.default_value with
  | none =>
    obtain ⟨h1, h2⟩ := setattr_fill_and_write_exact prop base_addr items xs s hd hsize hcast
    refine ⟨h1, ?_⟩
    intro i hi
    rw [h2, List.getElem?_eq_getElem hi]
    rfl
  | some d =>
    obtain ⟨h1, h2⟩ := setattr_fill_and_write_default prop base_addr items xs d s hd hcast
    refine ⟨h1, ?_⟩
    intro i hi
    rw [h2, List.getElem?_eq_getElem hi]
    rfl

/-- Elements that each cast to a value the trait reads back as the element
itself: the casts form a list whose reads are the elements. -/
theorem exists_casts_of_inverse (t : PropTraits Val) (items : List PyObject)
    (h : ∀ v ∈ items, ∃ x, t.cast v = some x ∧ t.to_py x = v) :
    ∃ xs : List Val, items.map t.cast = xs.map some ∧ xs.map t.to_py = items := by
  induction items with
  | nil => exact ⟨[], rfl, rfl⟩
  | cons v items ih =>
    obtain ⟨x, hx1, hx2⟩ := h v (List.mem_cons_self _ _)
    obtain ⟨xs, h1, h2⟩ := ih (fun w hw => h w (List.mem_cons_of_mem _ hw))
    exact ⟨x :: xs, by simp [hx1, h1], by simp [hx2, h2]⟩

end WriteThenRead

section Bounds

variable {Val : Type}

/-- The trace of the element-write loop, whether or not it fails: writes to
the slots `i .. i+m-1` for some `m` up to the number of elements. -/
theorem write_values_trace (prop : UProperty Val) (base_addr : Nat) :
    ∀ (items : List PyObject) (i : Nat) (s : State Val),
      ∃ m : Nat, m ≤ items.length ∧
        (write_values prop base_addr items i s).2.trace
          = s.trace ++ (List.range' i m).map
              (fun j => Access.set ⟨prop.Name, base_addr, j⟩) := by
  intro items
  induction items with
  | nil =>
    intro i s
    exact ⟨0, Nat.le_refl _, by simp [write_values]⟩
  | cons value items ih =>
    intro i s
    cases hc : prop.cls.traits.cast value with
    | none => exact ⟨0, Nat.zero_le _, by simp [write_values, hc]⟩
    | some x =>
      obtain ⟨m, hm, ht⟩ := ih (i + 1) (set_property prop i base_addr x s)
      refine ⟨m + 1, by simpa using hm, ?_⟩
      simp only [write_values, hc]
      rw [ht]
      simp [set_property, List.range'_succ]

/-- The slots the fill-and-write step writes, when the elements are no more
than the size of the property: all of the property, at the base address, with
an index below the size. -/
theorem setattr_fill_and_write_trace (prop : UProperty Val) (base_addr : Nat)
    (items : List PyObject) (s : State Val)
    (hlen : items.length ≤ to_size_t prop.ArrayDim) :
    ∃ added : List Access,
      (setattr_fill_and_write prop base_addr items s).2.trace = s.trace ++ added ∧
      ∀ a ∈ added, ∃ idx : Nat, a = Access.set ⟨prop.Name, base_addr, idx⟩
        ∧ idx < to_size_t prop.ArrayDim := by
  unfold setattr_fill_and_write
  cases hd : prop.cls.traits.default_value with
  | some d =>
    obtain ⟨m, hm, ht⟩ := write_values_trace prop base_addr items 0
      (fill_defaults prop base_addr d items.length (to_size_t prop.ArrayDim) s)
    refine ⟨(List.range' items.length (to_size_t prop.ArrayDim - items.length)).map
        (fun i => Access.set ⟨prop.Name, base_addr, i⟩)
      ++ (List.range' 0 m).map (fun j => Access.set ⟨prop.Name, base_addr, j⟩), ?_, ?_⟩
    · simp only [ht, fill_defaults_trace, List.append_assoc]
    · intro a ha
      simp only [List.mem_append, List.mem_map, List.mem_range'_1] at ha
      rcases ha with ⟨j, hj, rfl⟩ | ⟨j, hj, rfl⟩
      · exact ⟨j, rfl, by omega⟩
      · exact ⟨j, rfl, by omega⟩
  | none =>
    by_cases hne : items.length ≠ to_size_t prop.ArrayDim
    · exact ⟨[], by simp [hne], by simp⟩
    · obtain ⟨m, hm, ht⟩ := write_values_trace prop base_addr items 0 s
      refine ⟨(List.range' 0 m).map (fun j => Access.set ⟨prop.Name, base_addr, j⟩), ?_, ?_⟩
      · simp only [hne, if_false, ht]
      · intro a ha
        simp only [List.mem_map, List.mem_range'_1] at ha
        obtain ⟨j, hj, rfl⟩ := ha
        exact ⟨j, rfl, by omega⟩

/-- The slots `py_setattr` touches on a property whose `ArrayDim` is at least
`1`: every access it adds to the trace is to a slot of the property at the
base address with an index below `ArrayDim`. -/
theorem py_setattr_within_arity (prop : UProperty Val) (base_addr : Nat) (value : PyObject)
    (s : State Val) (h : 1 ≤ prop.ArrayDim) :
    ∃ added : List Access,
      (py_setattr (.property prop) base_addr value s).2.trace = s.trace ++ added ∧
      ∀ a ∈ added, ∃ idx : Nat,
        (a = Access.set ⟨prop.Name, base_addr, idx⟩ ∨ a = Access.get ⟨prop.Name, base_addr, idx⟩)
        ∧ (idx : Int) < prop.ArrayDim := by
  have hsz := prop.size_of_pos h
  have key : ∀ items : List PyObject, items.length ≤ to_size_t prop.ArrayDim →
      ∃ added : List Access,
        (setattr_lambda prop base_addr items s).2.trace = s.trace ++ added ∧
        ∀ a ∈ added, ∃ idx : Nat,
          (a = Access.set ⟨prop.Name, base_addr, idx⟩
            ∨ a = Access.get ⟨prop.Name, base_addr, idx⟩)
          ∧ (idx : Int) < prop.ArrayDim := by
    intro items hlen
    have generic : ∃ added : List Access,
        (setattr_fill_and_write prop base_addr items s).2.trace = s.trace ++ added ∧
        ∀ a ∈ added, ∃ idx : Nat,
          (a = Access.set ⟨prop.Name, base_addr, idx⟩
            ∨ a = Access.get ⟨prop.Name, base_addr, idx⟩)
          ∧ (idx : Int) < prop.ArrayDim := by
      obtain ⟨added, h1, h2⟩ := setattr_fill_and_write_trace prop base_addr items s hlen
      refine ⟨added, h1, ?_⟩
      intro a ha
      obtain ⟨idx, e, hlt⟩ := h2 a ha
      exact ⟨idx, Or.inl e, by omega⟩
    unfold setattr_lambda
    cases hc : prop.cls with
    | other traits => exact generic
    | UArrayProperty default_value of_items to_items array_py_setitem =>
      simp only
      split
      · refine ⟨[Access.get ⟨prop.Name, base_addr, 0⟩, Access.set ⟨prop.Name, base_addr, 0⟩],
          ?_, ?_⟩
        · cases (array_py_setitem (get_property prop 0 base_addr 0 s).1
            (items.headD PyObject.none)).2 <;> simp [get_property]
        · intro a ha
          simp only [List.mem_cons, List.mem_singleton, List.not_mem_nil, or_false] at ha
          rcases ha with rfl | rfl
          · exact ⟨0, Or.inr rfl, by omega⟩
          · exact ⟨0, Or.inl rfl, by omega⟩
      · exact generic
  by_cases hk : 1 < prop.ArrayDim
  · simp only [py_setattr, if_pos hk]
    cases hseq : value.as_sequence with
    | none => exact ⟨[], by simp, by simp⟩
    | some value_seq =>
      by_cases hlong : to_size_t prop.ArrayDim < value_seq.length
      · exact ⟨[], by simp [hlong], by simp⟩
      · simp only [if_neg hlong]
        exact key value_seq (by omega)
  · simp only [py_setattr, if_neg hk]
    exact key [value] (by
      rw [hsz]
      simp
      omega)

end Bounds

section NegativeArity

/-- On a property with `ArrayDim = -1` the size the loops see is
`2^64 - 1`, so the default fill of `py_setattr` reaches slot `1` (and every
slot after it up to that size): written with `5`, slot `0` holds `5` and
slot `1` holds the default `0`. -/
theorem py_setattr_negative_arity_fills :
    to_size_t counts_neg.ArrayDim = 18446744073709551615 ∧
    (py_setattr (.property counts_neg) 16 (PyObject.int 5) sevens).1 = .ok () ∧
    (py_setattr (.property counts_neg) 16 (PyObject.int 5) sevens).2.mem ⟨"Counts", 16, 0⟩ = 5 ∧
    (py_setattr (.property counts_neg) 16 (PyObject.int 5) sevens).2.mem ⟨"Counts", 16, 1⟩
      = 0 := by
  have hsz : to_size_t counts_neg.ArrayDim = 18446744073709551615 := by decide
  have hstep : py_setattr (.property counts_neg) 16 (PyObject.int 5) sevens
      = setattr_fill_and_write counts_neg 16 [PyObject.int 5] sevens := rfl
  obtain ⟨h1, h2⟩ := setattr_fill_and_write_default counts_neg 16 [PyObject.int 5] [5] 0 sevens
    rfl rfl
  rw [hstep]
  refine ⟨hsz, h1, ?_, ?_⟩
  · have := h2 0
    simpa [counts_neg] using this
  · have := h2 1
    rw [hsz] at this
    simpa [counts_neg] using this

end NegativeArity

/-! ## The properties of the bridge -/

section Claims

variable {Val : Type}

/-- C5: for a field that is not a data-property (a function, a struct type
or a field of any other class) and every value, `py_setattr` fails with the
attribute error "is not a property, and thus cannot be set" and returns the
state it was given: no slot is written and nothing is added to the trace. -/
theorem py_setattr_non_property_fails (field : UField Val) (base_addr : Nat) (value : PyObject)
    (s : State Val) (h : field.is_property = false) :
    py_setattr field base_addr value s
      = (.error (.attribute_error
          ("attribute '" ++ field.Name ++ "' is not a property, and thus cannot be set")), s) := by
  cases field with
  | property prop => simp [UField.is_property] at h
  | function name => rfl
  | script_struct name => rfl
  | other name class_name => rfl

/-- Witness of C5: setting the function field `Jump`. -/
theorem py_setattr_non_property_fails_witness :
    (UField.function "Jump" : UField Int).is_property = false ∧
    py_setattr (UField.function "Jump") 0 (PyObject.int 1) sevens
      = (.error (.attribute_error
          "attribute 'Jump' is not a property, and thus cannot be set"), sevens) :=
  ⟨rfl, py_setattr_non_property_fails (UField.function "Jump") 0 (PyObject.int 1) sevens rfl⟩

/-- C8: for a data-property with `ArrayDim < 1`, whatever its class, the base
address and the bound object, `py_getattr` fails with the attribute error that
reports the name and the size, and returns the state it was given: in
particular the trace is unchanged, so `get_property` was never called. -/
theorem py_getattr_degenerate_fails (prop : UProperty Val) (base_addr parent : Nat)
    (func_obj : Option Nat) (s : State Val) (h : prop.ArrayDim < 1) :
    py_getattr (.property prop) base_addr parent func_obj s
      = (.error (.attribute_error
          ("attribute '" ++ prop.Name ++ "' has size of " ++ toString prop.ArrayDim)), s) := by
  simp [py_getattr, h]

/-- Witness of C8: reading the property `Counts` of size `0`. -/
theorem py_getattr_degenerate_fails_witness :
    counts0.ArrayDim < 1 ∧
    py_getattr (.property counts0) 16 0 Option.none sevens
      = (.error (.attribute_error "attribute 'Counts' has size of 0"), sevens) :=
  ⟨by decide, py_getattr_degenerate_fails counts0 16 0 Option.none sevens (by decide)⟩

/-- C7: for a data-property with `ArrayDim = 1`, `py_getattr` returns the
trait's read of slot `0` itself, and not the one-element tuple around it. -/
theorem py_getattr_scalar (prop : UProperty Val) (base_addr parent : Nat)
    (func_obj : Option Nat) (s : State Val) (h : prop.ArrayDim = 1) :
    (py_getattr (.property prop) base_addr parent func_obj s).1
      = .ok (prop.cls.traits.to_py (s.mem ⟨prop.Name, base_addr, 0⟩)) ∧
    (py_getattr (.property prop) base_addr parent func_obj s).1
      ≠ .ok (PyObject.tuple [prop.cls.traits.to_py (s.mem ⟨prop.Name, base_addr, 0⟩)]) := by
  have hread : (py_getattr (.property prop) base_addr parent func_obj s).1
      = .ok (prop.cls.traits.to_py (s.mem ⟨prop.Name, base_addr, 0⟩)) := by
    rw [py_getattr_property prop base_addr parent func_obj s (by omega), if_pos h]
  refine ⟨hread, ?_⟩
  rw [hread]
  intro hc
  have hsize := congrArg sizeOf (Except.ok.inj hc)
  simp at hsize
  omega

/-- Witness of C7: reading `Counts` of size `1` from a memory of sevens. -/
theorem py_getattr_scalar_witness :
    counts1.ArrayDim = 1 ∧
    (py_getattr (.property counts1) 16 0 Option.none sevens).1 = .ok (PyObject.int 7) :=
  ⟨rfl, (py_getattr_scalar counts1 16 0 Option.none sevens rfl).1⟩

/-- C6: for a data-property with `ArrayDim = k > 1`, `py_getattr` returns a
tuple of exactly `k` elements whose element `i` is the trait's read of slot
`i` at the base address, for every `i` in `[0, k)`. -/
theorem py_getattr_fixed_array (prop : UProperty Val) (base_addr parent : Nat)
    (func_obj : Option Nat) (s : State Val) (h : 1 < prop.ArrayDim) :
    ∃ ret : List PyObject,
      (py_getattr (.property prop) base_addr parent func_obj s).1 = .ok (PyObject.tuple ret) ∧
      (ret.length : Int) = prop.ArrayDim ∧
      ∀ i : Nat, (i : Int) < prop.ArrayDim →
        ret[i]? = some (prop.cls.traits.to_py (s.mem ⟨prop.Name, base_addr, i⟩)) := by
  refine ⟨(List.range prop.ArrayDim.toNat).map
    (fun i => prop.cls.traits.to_py (s.mem ⟨prop.Name, base_addr, i⟩)), ?_, ?_, ?_⟩
  · rw [py_getattr_property prop base_addr parent func_obj s (by omega), if_neg (by omega)]
  · simp
    omega
  · intro i hi
    rw [List.getElem?_map, List.getElem?_range (by omega)]
    rfl

/-- Witness of C6: reading `Counts` of size `4`. -/
theorem py_getattr_fixed_array_witness :
    1 < counts4.ArrayDim ∧
    ∃ ret : List PyObject,
      (py_getattr (.property counts4) 16 0 Option.none sevens).1 = .ok (PyObject.tuple ret) ∧
      (ret.length : Int) = counts4.ArrayDim ∧
      ∀ i : Nat, (i : Int) < counts4.ArrayDim →
        ret[i]? = some (counts4.cls.traits.to_py (sevens.mem ⟨counts4.Name, 16, i⟩)) :=
  ⟨by decide, py_getattr_fixed_array counts4 16 0 Option.none sevens (by decide)⟩

/-- C4: for a data-property of a class without default and `ArrayDim = k > 1`,
`py_setattr` with a sequence of `n < k` values fails with the type error
"too short" and returns the state it was given: the size check comes before
every slot write, so every slot keeps its value. -/
theorem py_setattr_no_default_too_short (prop : UProperty Val) (base_addr : Nat)
    (value : PyObject) (value_seq : List PyObject) (s : State Val)
    (hk : 1 < prop.ArrayDim)
    (hd : prop.cls.traits.default_value = Option.none)
    (hseq : value.as_sequence = some value_seq)
    (hn : (value_seq.length : Int) < prop.ArrayDim) :
    py_setattr (.property prop) base_addr value s
      = (.error (.type_error
          ("attribute value is too short, " ++ prop.Name ++ " must be given as exactly "
            ++ toString prop.ArrayDim
            ++ " values (no known default to use when less are given)")), s) := by
  rw [py_setattr_sequence prop base_addr value value_seq s hk hseq (by omega)]
  have hne : value_seq.length ≠ to_size_t prop.ArrayDim := by
    rw [prop.size_of_pos (by omega)]
    omega
  simp [setattr_fill_and_write, hd, hne]

/-- Witness of C4: two values for the property `Handles` of size `3`. -/
theorem py_setattr_no_default_too_short_witness :
    1 < handles3.ArrayDim ∧
    handles3.cls.traits.default_value = Option.none ∧
    (PyObject.list [PyObject.int 1, PyObject.int 2]).as_sequence
      = some [PyObject.int 1, PyObject.int 2] ∧
    (([PyObject.int 1, PyObject.int 2].length : Nat) : Int) < handles3.ArrayDim ∧
    py_setattr (.property handles3) 16 (PyObject.list [PyObject.int 1, PyObject.int 2]) sevens
      = (.error (.type_error
          ("attribute value is too short, Handles must be given as exactly 3"
            ++ " values (no known default to use when less are given)")), sevens) :=
  ⟨by decide, rfl, rfl, by decide,
    py_setattr_no_default_too_short handles3 16 (PyObject.list [PyObject.int 1, PyObject.int 2])
      [PyObject.int 1, PyObject.int 2] sevens (by decide) rfl rfl (by decide)⟩

/-- C9: with the flag set to false, `py_dir` returns exactly the names
`object.__dir__` gives; with the flag set to true, and in the state the module
starts in, it returns those names followed by the name of every field of the
type, in the order of `type->fields()`, duplicates included. -/
theorem py_dir_toggle {Self : Type} (g : Globals) (object_dir : Self → List String)
    (self : Self) (type : UStruct Val) :
    py_dir (register_property_helpers false g) object_dir self type = object_dir self ∧
    py_dir (register_property_helpers true g) object_dir self type
      = object_dir self ++ type.fields.map UField.Name ∧
    py_dir Globals.initial object_dir self type
      = object_dir self ++ type.fields.map UField.Name :=
  ⟨rfl, rfl, rfl⟩

end Claims

section WriteClaims

variable {Val : Type}

/-- C2: round trip. For a data-property with `ArrayDim = k >= 1`, let
`value_seq` be the values written: the bare value when `k = 1`, the `k` items
of the sequence when `k > 1`. If every one of them casts to a native value
that the trait reads back as the value itself, then `py_setattr` succeeds and
`py_getattr` on the state it leaves returns the written values: the value
itself when `k = 1`, the tuple of the `k` items, in order, when `k > 1`. -/
theorem py_setattr_py_getattr_round_trip (prop : UProperty Val) (base_addr parent : Nat)
    (func_obj : Option Nat) (value : PyObject) (value_seq : List PyObject) (s : State Val)
    (hk : 1 ≤ prop.ArrayDim)
    (hvalue : if prop.ArrayDim = 1 then value_seq = [value]
      else value.as_sequence = some value_seq)
    (hlen : (value_seq.length : Int) = prop.ArrayDim)
    (hinv : ∀ v ∈ value_seq, ∃ x, prop.cls.traits.cast v = some x
      ∧ prop.cls.traits.to_py x = v) :
    (py_setattr (.property prop) base_addr value s).1 = .ok () ∧
    (py_getattr (.property prop) base_addr parent func_obj
        (py_setattr (.property prop) base_addr value s).2).1
      = .ok (if prop.ArrayDim = 1 then value else PyObject.tuple value_seq) := by
  obtain ⟨xs, hcast, hread⟩ := exists_casts_of_inverse prop.cls.traits value_seq hinv
  have hxl := length_eq_of_cast _ _ _ hcast
  have hsz := prop.size_of_pos hk
  have hsize : value_seq.length = to_size_t prop.ArrayDim := by
    rw [hsz]
    omega
  have hstep : py_setattr (.property prop) base_addr value s
      = setattr_fill_and_write prop base_addr value_seq s := by
    by_cases h1 : prop.ArrayDim = 1
    · rw [if_pos h1] at hvalue
      subst hvalue
      obtain ⟨x, hx, _⟩ := hinv value (List.mem_singleton_self _)
      have hn : ¬ 1 < prop.ArrayDim := by omega
      simp only [py_setattr, if_neg hn]
      exact setattr_lambda_of_cast prop base_addr value x s hx
    · rw [if_neg h1] at hvalue
      exact py_setattr_sequence prop base_addr value value_seq s (by omega) hvalue (by omega)
  rw [hstep]
  obtain ⟨hok, hmem⟩ := setattr_fill_and_write_full prop base_addr value_seq xs s hsize hcast
  refine ⟨hok, ?_⟩
  rw [py_getattr_property prop base_addr parent func_obj _ hk]
  have hlist : (List.range prop.ArrayDim.toNat).map
      (fun i => prop.cls.traits.to_py
        ((setattr_fill_and_write prop base_addr value_seq s).2.mem ⟨prop.Name, base_addr, i⟩))
      = value_seq := by
    have h := map_range_eq_append_replicate
      (fun i => prop.cls.traits.to_py
        ((setattr_fill_and_write prop base_addr value_seq s).2.mem ⟨prop.Name, base_addr, i⟩))
      value_seq PyObject.none prop.ArrayDim.toNat (by omega)
      (by
        intro i hi
        have hi2 : i < xs.length := by omega
        have hm := hmem i hi2
        rw [List.getElem?_eq_getElem hi2] at hm
        have hm2 : (setattr_fill_and_write prop base_addr value_seq s).2.mem
            ⟨prop.Name, base_addr, i⟩ = xs[i] := Option.some.inj hm
        simp only [hm2]
        rw [← hread, List.getElem?_map, List.getElem?_eq_getElem hi2]
        rfl)
      (by
        intro i h1 h2
        omega)
    rw [h]
    have : prop.ArrayDim.toNat - value_seq.length = 0 := by omega
    simp [this]
  rw [hlist]
  by_cases h1 : prop.ArrayDim = 1
  · rw [if_pos h1] at hvalue
    subst hvalue
    have hx0 : xs.length = 1 := by simpa using hxl.symm
    match xs, hx0, hread, hmem with
    | [x], _, hr, hm =>
      have hm0 := Option.some.inj (hm 0 (by simp))
      have hr0 : prop.cls.traits.to_py x = value := by simpa using hr
      rw [if_pos h1, if_pos h1, hm0]
      exact congrArg Except.ok hr0
  · simp [h1]

/-- Witness of C2: the scalar `Counts` written with `5`, and `Counts` of size
`2` written with the list `[1, 2]`. -/
theorem py_setattr_py_getattr_round_trip_witness :
    ((py_setattr (.property counts1) 16 (PyObject.int 5) sevens).1 = .ok () ∧
      (py_getattr (.property counts1) 16 0 Option.none
          (py_setattr (.property counts1) 16 (PyObject.int 5) sevens).2).1
        = .ok (PyObject.int 5)) ∧
    ((py_setattr (.property counts2) 16
        (PyObject.list [PyObject.int 1, PyObject.int 2]) sevens).1 = .ok () ∧
      (py_getattr (.property counts2) 16 0 Option.none
          (py_setattr (.property counts2) 16
            (PyObject.list [PyObject.int 1, PyObject.int 2]) sevens).2).1
        = .ok (PyObject.tuple [PyObject.int 1, PyObject.int 2])) :=
  ⟨py_setattr_py_getattr_round_trip counts1 16 0 Option.none (PyObject.int 5) [PyObject.int 5]
      sevens (by decide) rfl rfl
      (by
        intro v hv
        simp only [List.mem_singleton] at hv
        subst hv
        exact ⟨5, rfl, rfl⟩),
    py_setattr_py_getattr_round_trip counts2 16 0 Option.none
      (PyObject.list [PyObject.int 1, PyObject.int 2]) [PyObject.int 1, PyObject.int 2]
      sevens (by decide) rfl rfl
      (by
        intro v hv
        simp only [List.mem_cons, List.mem_singleton, List.not_mem_nil, or_false] at hv
        rcases hv with hv | hv
        · subst hv
          exact ⟨1, rfl, rfl⟩
        · subst hv
          exact ⟨2, rfl, rfl⟩)⟩

end WriteClaims

section DefaultFill

variable {Val : Type}

/-- C3 as amended: default fill. For a data-property with `ArrayDim = k > 1`
whose class has the default `d`, and a sequence of `n <= k` values that cast
to the native values `xs`, `py_setattr` succeeds and `py_getattr` on the state
it leaves returns the tuple of `k` elements whose first `n` elements are the
trait's reads of `xs` and whose elements `n .. k-1` are all the trait's read
of `d`. The first `n` elements are the supplied values themselves when the
trait reads every cast value back as the value it was cast from. -/
theorem py_setattr_default_fill (prop : UProperty Val) (base_addr parent : Nat)
    (func_obj : Option Nat) (value : PyObject) (value_seq : List PyObject) (xs : List Val)
    (d : Val) (s : State Val)
    (hk : 1 < prop.ArrayDim)
    (hd : prop.cls.traits.default_value = some d)
    (hseq : value.as_sequence = some value_seq)
    (hn : (value_seq.length : Int) ≤ prop.ArrayDim)
    (hcast : value_seq.map prop.cls.traits.cast = xs.map some) :
    (py_setattr (.property prop) base_addr value s).1 = .ok () ∧
    (py_getattr (.property prop) base_addr parent func_obj
        (py_setattr (.property prop) base_addr value s).2).1
      = .ok (PyObject.tuple (xs.map prop.cls.traits.to_py
          ++ List.replicate (prop.ArrayDim.toNat - value_seq.length)
              (prop.cls.traits.to_py d))) ∧
    ((∀ v ∈ value_seq, ∀ x, prop.cls.traits.cast v = some x → prop.cls.traits.to_py x = v) →
      xs.map prop.cls.traits.to_py = value_seq) := by
  have hxl := length_eq_of_cast _ _ _ hcast
  have hsz := prop.size_of_pos (by omega : 1 ≤ prop.ArrayDim)
  rw [py_setattr_sequence prop base_addr value value_seq s hk hseq (by omega)]
  obtain ⟨hok, hmem⟩ := setattr_fill_and_write_default prop base_addr value_seq xs d s hd hcast
  refine ⟨hok, ?_, ?_⟩
  · rw [py_getattr_property prop base_addr parent func_obj _ (by omega), if_neg (by omega)]
    have h := map_range_eq_append_replicate
      (fun i => prop.cls.traits.to_py
        ((setattr_fill_and_write prop base_addr value_seq s).2.mem ⟨prop.Name, base_addr, i⟩))
      (xs.map prop.cls.traits.to_py) (prop.cls.traits.to_py d) prop.ArrayDim.toNat
      (by
        rw [List.length_map]
        omega)
      (by
        intro i hi
        rw [List.length_map] at hi
        simp only [hmem i, List.getElem?_map, List.getElem?_eq_getElem hi]
        rfl)
      (by
        intro i h1 h2
        rw [List.length_map] at h1
        have hnone : xs[i]? = Option.none := List.getElem?_eq_none (by omega)
        simp only [hmem i, hnone, hsz]
        rw [Option.getD_none, if_pos ⟨by omega, h2⟩])
    rw [h, List.length_map, hxl]
  · intro hinv
    have hall : ∀ v ∈ value_seq, ∃ x, prop.cls.traits.cast v = some x
        ∧ prop.cls.traits.to_py x = v := by
      intro v hv
      have hmem2 : prop.cls.traits.cast v ∈ value_seq.map prop.cls.traits.cast :=
        List.mem_map_of_mem _ hv
      rw [hcast] at hmem2
      obtain ⟨x, _, hx⟩ := List.mem_map.mp hmem2
      exact ⟨x, hx.symm, hinv v hv x hx.symm⟩
    obtain ⟨ys, h1, h2⟩ := exists_casts_of_inverse prop.cls.traits value_seq hall
    have hys : ys = xs := by
      have := h1.symm.trans hcast
      exact List.map_injective_iff.mpr (Option.some_injective Val) this
    rw [← hys]
    exact h2

/-- Witness of C3 as amended: `Counts` of size `4` written with `[1, 2]`
reads back as `(1, 2, 0, 0)`. -/
theorem py_setattr_default_fill_witness :
    (py_setattr (.property counts4) 16
        (PyObject.list [PyObject.int 1, PyObject.int 2]) sevens).1 = .ok () ∧
    (py_getattr (.property counts4) 16 0 Option.none
        (py_setattr (.property counts4) 16
          (PyObject.list [PyObject.int 1, PyObject.int 2]) sevens).2).1
      = .ok (PyObject.tuple
          [PyObject.int 1, PyObject.int 2, PyObject.int 0, PyObject.int 0]) :=
  have h := py_setattr_default_fill counts4 16 0 Option.none
    (PyObject.list [PyObject.int 1, PyObject.int 2]) [PyObject.int 1, PyObject.int 2] [1, 2] 0
    sevens (by decide) rfl rfl (by decide) rfl
  ⟨h.1, h.2.1⟩

/-- Counterexample to C3 as stated: the boolean property `Flags` of size `4`,
written with the list `[5, True]`. Both values cast, the write succeeds, and
the read returns `(True, True, False, False)`: its first element is not the
supplied `5`, whatever stands in the last two places. -/
theorem py_setattr_default_fill_counterexample :
    flags4.cls.traits.default_value = some false ∧
    [PyObject.int 5, PyObject.bool true].map flags4.cls.traits.cast = [some true, some true] ∧
    (py_setattr (.property flags4) 16
        (PyObject.list [PyObject.int 5, PyObject.bool true]) all_true).1 = .ok () ∧
    (py_getattr (.property flags4) 16 0 Option.none
        (py_setattr (.property flags4) 16
          (PyObject.list [PyObject.int 5, PyObject.bool true]) all_true).2).1
      = .ok (PyObject.tuple
          [PyObject.bool true, PyObject.bool true, PyObject.bool false, PyObject.bool false]) ∧
    ¬ ∃ d : PyObject,
      (py_getattr (.property flags4) 16 0 Option.none
          (py_setattr (.property flags4) 16
            (PyObject.list [PyObject.int 5, PyObject.bool true]) all_true).2).1
        = .ok (PyObject.tuple [PyObject.int 5, PyObject.bool true, d, d]) := by
  refine ⟨rfl, rfl, rfl, rfl, ?_⟩
  rintro ⟨d, hd⟩
  have h : (py_getattr (.property flags4) 16 0 Option.none
      (py_setattr (.property flags4) 16
        (PyObject.list [PyObject.int 5, PyObject.bool true]) all_true).2).1
      = .ok (PyObject.tuple
          [PyObject.bool true, PyObject.bool true, PyObject.bool false, PyObject.bool false]) :=
    rfl
  rw [h] at hd
  injection hd with hd
  injection hd with hd
  injection hd with hd _
  cases hd

/-- C10: writes are not transactional. For a data-property with
`ArrayDim = k > 1` whose class has the default `d`, and a sequence of
`n <= k` values of which the first `j` (the list `pre`) cast to `xs` and the
next one (`bad`) does not cast, `py_setattr` fails with the cast error and
leaves the slots written so far mutated: slot `i` holds `xs[i]` for `i < j`,
its old value for `j <= i < n`, and `d` for `n <= i < k`. -/
theorem py_setattr_partial_write (prop : UProperty Val) (base_addr : Nat) (value : PyObject)
    (pre : List PyObject) (bad : PyObject) (rest : List PyObject) (xs : List Val) (d : Val)
    (s : State Val)
    (hk : 1 < prop.ArrayDim)
    (hd : prop.cls.traits.default_value = some d)
    (hseq : value.as_sequence = some (pre ++ bad :: rest))
    (hn : ((pre ++ bad :: rest).length : Int) ≤ prop.ArrayDim)
    (hpre : pre.map prop.cls.traits.cast = xs.map some)
    (hbad : prop.cls.traits.cast bad = Option.none) :
    (py_setattr (.property prop) base_addr value s).1 = .error .cast_error ∧
    (∀ i : Nat, i < pre.length →
      some ((py_setattr (.property prop) base_addr value s).2.mem ⟨prop.Name, base_addr, i⟩)
        = xs[i]?) ∧
    (∀ i : Nat, pre.length ≤ i → i < (pre ++ bad :: rest).length →
      (py_setattr (.property prop) base_addr value s).2.mem ⟨prop.Name, base_addr, i⟩
        = s.mem ⟨prop.Name, base_addr, i⟩) ∧
    (∀ i : Nat, (pre ++ bad :: rest).length ≤ i → (i : Int) < prop.ArrayDim →
      (py_setattr (.property prop) base_addr value s).2.mem ⟨prop.Name, base_addr, i⟩ = d) := by
  have hxl := length_eq_of_cast _ _ _ hpre
  have hsz := prop.size_of_pos (by omega : 1 ≤ prop.ArrayDim)
  rw [py_setattr_sequence prop base_addr value (pre ++ bad :: rest) s hk hseq (by omega)]
  simp only [setattr_fill_and_write, hd]
  rw [write_values_fail prop base_addr bad rest hbad pre xs 0 _ hpre]
  obtain ⟨_, h2, _⟩ := write_values_ok prop base_addr pre xs 0
    (fill_defaults prop base_addr d (pre ++ bad :: rest).length (to_size_t prop.ArrayDim) s) hpre
  refine ⟨rfl, ?_, ?_, ?_⟩
  · intro i hi
    have hi2 : i < xs.length := by omega
    simp only [h2]
    simp [List.getElem?_eq_getElem hi2]
  · intro i h3 h4
    have hnone : xs[i]? = Option.none := List.getElem?_eq_none (by omega)
    simp only [h2, fill_defaults_mem]
    simp only [and_self, Nat.zero_le, if_true, Nat.sub_zero, hnone, Option.getD_none]
    rw [if_neg (by omega)]
  · intro i h3 h4
    have hnone : xs[i]? = Option.none := by
      apply List.getElem?_eq_none
      simp at h3
      omega
    simp only [h2, fill_defaults_mem]
    simp only [and_self, Nat.zero_le, if_true, Nat.sub_zero, hnone, Option.getD_none]
    rw [if_pos ⟨trivial, trivial, h3, by omega⟩]

/-- Witness of C10: `Counts` of size `4` written with `[1, "x", 3]`: slot `0`
holds `1`, slots `1` and `2` keep `7`, slot `3` holds the default `0`. -/
theorem py_setattr_partial_write_witness :
    (py_setattr (.property counts4) 16
      (PyObject.list [PyObject.int 1, PyObject.str "x", PyObject.int 3]) sevens).1
      = .error .cast_error ∧
    (∀ i : Nat, i < 1 →
      some ((py_setattr (.property counts4) 16
        (PyObject.list [PyObject.int 1, PyObject.str "x", PyObject.int 3]) sevens).2.mem
          ⟨"Counts", 16, i⟩) = [(1 : Int)][i]?) ∧
    (∀ i : Nat, 1 ≤ i → i < 3 →
      (py_setattr (.property counts4) 16
        (PyObject.list [PyObject.int 1, PyObject.str "x", PyObject.int 3]) sevens).2.mem
          ⟨"Counts", 16, i⟩ = 7) ∧
    (∀ i : Nat, 3 ≤ i → (i : Int) < 4 →
      (py_setattr (.property counts4) 16
        (PyObject.list [PyObject.int 1, PyObject.str "x", PyObject.int 3]) sevens).2.mem
          ⟨"Counts", 16, i⟩ = 0) :=
  py_setattr_partial_write counts4 16
    (PyObject.list [PyObject.int 1, PyObject.str "x", PyObject.int 3])
    [PyObject.int 1] (PyObject.str "x") [PyObject.int 3] [1] 0 sevens
    (by decide) rfl rfl (by decide) rfl rfl

/-- C1, the code at the failing input: the integer property `Counts` with
`ArrayDim = 0`, written with `5` at base address `16`. `py_setattr` succeeds
and has called `set_property` on slot `0`, which then holds `5`: slot index
`0` is not below the arity `0`. -/
theorem py_setattr_zero_arity_writes_slot_zero :
    counts0.ArrayDim = 0 ∧
    (py_setattr (.property counts0) 16 (PyObject.int 5) sevens).1 = .ok () ∧
    (py_setattr (.property counts0) 16 (PyObject.int 5) sevens).2.trace
      = [Access.set ⟨"Counts", 16, 0⟩] ∧
    sevens.mem ⟨"Counts", 16, 0⟩ = 7 ∧
    (py_setattr (.property counts0) 16 (PyObject.int 5) sevens).2.mem ⟨"Counts", 16, 0⟩ = 5 ∧
    (py_getattr (.property counts0) 16 0 Option.none sevens).1
      = .error (.attribute_error "attribute 'Counts' has size of 0") :=
  ⟨rfl, rfl, rfl, rfl, rfl, rfl⟩

end DefaultFill

end pyunrealsdk.unreal
